import Mathlib

/-!
A shallow embedding of the URL-shortener core from `src/app.py`:
the URL normalizer (`normalize_url`, together with the relevant part of
Python's `urllib.parse.urlsplit`), the random code generator
(`generate_code`), the shortening service (`insert_short_url`) and the
resolver (`lookup_original_url`) over the SQLite-backed store.

Strings are modelled as `List Char`; the SQLite table `urls` is a list of
rows in insertion order (SQLite returns rows in rowid order for these
unordered queries, and `fetchone` takes the first).  Randomness is passed
in explicitly as a stream of draws below 62, matching
`random.choice(alphabet)`.  The `RuntimeError` raised on generation
exhaustion is modelled by `InsertResult.error`; the `ValueError` that
`urlsplit` can raise on bracketed hosts is modelled by `pyUrlsplit`
returning `none`.
-/

namespace ShortUrl

/-- Characters stripped by Python's `str.strip()` with no arguments:
the code points for which `str.isspace()` holds (listed here up to
U+3000, covering the whole Unicode whitespace table used by CPython). -/
def isPyWhitespace (c : Char) : Bool :=
  ([9, 10, 11, 12, 13, 28, 29, 30, 31, 32, 133, 160, 5760,
    8192, 8193, 8194, 8195, 8196, 8197, 8198, 8199, 8200, 8201, 8202,
    8232, 8233, 8239, 8287, 12288] : List Nat).contains c.toNat

/-- Python `raw.strip()`: drop leading and trailing whitespace. -/
def pyStrip (l : List Char) : List Char :=
  ((l.dropWhile isPyWhitespace).reverse.dropWhile isPyWhitespace).reverse

/-- The characters of `urllib.parse._WHATWG_C0_CONTROL_OR_SPACE`
(`chr(0)` through `chr(0x20)`), lstripped from the URL by `urlsplit`. -/
def isC0OrSpace (c : Char) : Bool :=
  c.toNat ≤ 32

/-- The characters of `urllib.parse._UNSAFE_URL_BYTES_TO_REMOVE`
(tab, carriage return, newline), removed everywhere by `urlsplit`. -/
def isUnsafeUrlByte (c : Char) : Bool :=
  c = '\t' || c = '\r' || c = '\n'

/-- The characters of `urllib.parse.scheme_chars`. -/
def schemeChars : List Char :=
  "abcdefghijklmnopqrstuvwxyzABCDEFGHIJKLMNOPQRSTUVWXYZ0123456789+-.".toList

/-- Scheme extraction from `urlsplit`: take the part before the first
`:` as the (lowercased) scheme when it is a well-formed scheme name
(`i > 0 and url[0].isascii() and url[0].isalpha()` and every character
of `url[:i]` in `scheme_chars`); otherwise the scheme is empty. -/
def splitScheme (url : List Char) : List Char × List Char :=
  match url.findIdx? (fun c => c == ':') with
  | some i =>
    if 0 < i && (url.headD ' ').isAlpha
        && (url.take i).all (fun c => schemeChars.contains c)
    then ((url.take i).map Char.toLower, url.drop (i + 1))
    else ([], url)
  | none => ([], url)

/-- The scheme/netloc part of `urllib.parse.urlsplit`: lstrip C0
controls and space, remove tab/CR/LF, extract the scheme, and read the
netloc after a leading `//` up to the first `/`, `?` or `#`.  CPython
raises `ValueError` on a netloc with mismatched brackets and, via
`_check_bracketed_host`, on a bracketed host that is not a valid
IPv6/IPvFuture literal; any netloc containing `[` or `]` is modelled
here as that `ValueError` (`none`).  This is exact for mismatched
brackets and for invalid bracketed hosts such as `[a b]`, and deviates
only on valid bracketed hosts such as `[::1]` (accepted by CPython),
which no claim involves; `_checknetloc`'s NFKC-normalization fault,
which can fire only on non-ASCII netlocs, is likewise omitted. -/
def pyUrlsplit (url0 : List Char) : Option (List Char × List Char) :=
  let url1 := url0.dropWhile isC0OrSpace
  let url := url1.filter (fun c => !isUnsafeUrlByte c)
  let p := splitScheme url
  if p.2.take 2 = ['/', '/'] then
    let netloc := (p.2.drop 2).takeWhile (fun c => !(c == '/' || c == '?' || c == '#'))
    if netloc.contains '[' || netloc.contains ']' then none
    else some (p.1, netloc)
  else some (p.1, [])

/-- The final checks of `normalize_url` on the (possibly
scheme-prefixed) cleaned string: reject unless the parsed scheme is
`http` or `https`, the netloc is non-empty and the string contains no
space character. -/
def acceptUrl (cleaned sch nl : List Char) : Option (List Char) :=
  if ¬(sch = "http".toList ∨ sch = "https".toList) then some []
  else if nl = [] ∨ ' ' ∈ cleaned then some []
  else some cleaned

/-- Embedding of `normalize_url` from `src/app.py`: strip, reject the
empty result, parse, prepend `https://` and re-parse when no scheme was
found, then run the acceptance checks.  `some []` is the empty-string
rejection sentinel; `none` is an uncaught `ValueError` from `urlparse`. -/
def normalize_url (raw : List Char) : Option (List Char) :=
  if pyStrip raw = [] then some []
  else
    match pyUrlsplit (pyStrip raw) with
    | none => none
    | some (sch, nl) =>
      if sch = [] then
        match pyUrlsplit ("https://".toList ++ pyStrip raw) with
        | none => none
        | some p2 => acceptUrl ("https://".toList ++ pyStrip raw) p2.1 p2.2
      else acceptUrl (pyStrip raw) sch nl

/-- `CODE_LENGTH` from `src/app.py`. -/
def CODE_LENGTH : Nat := 6

/-- `MAX_GENERATION_ATTEMPTS` from `src/app.py`. -/
def MAX_GENERATION_ATTEMPTS : Nat := 20

/-- `string.ascii_letters + string.digits`, the alphabet of
`generate_code`. -/
def alphabet : List Char :=
  "abcdefghijklmnopqrstuvwxyzABCDEFGHIJKLMNOPQRSTUVWXYZ0123456789".toList

/-- Embedding of `generate_code` from `src/app.py`: six independent
draws of `random.choice(alphabet)`, where draw `i` is `alphabet` indexed
by the random value `rnd i` (`random.choice(seq)` is
`seq[randbelow(len(seq))]`, so each draw is below 62). -/
def generate_code (rnd : Nat → Fin 62) : String :=
  String.mk ((List.range CODE_LENGTH).map
    (fun i => alphabet.get ((rnd i).cast (by decide))))

/-- One row of the `urls` table created by `init_db`. -/
structure UrlRecord where
  id : Nat
  code : String
  original_url : String
  created_at : String
  clicks : Nat
deriving DecidableEq

/-- The SQLite database: the `urls` rows in rowid order, plus the next
AUTOINCREMENT id. -/
structure Store where
  rows : List UrlRecord
  nextId : Nat
deriving DecidableEq

/-- Embedding of `init_db` from `src/app.py`: an empty `urls` table;
AUTOINCREMENT ids start at 1. -/
def init_db : Store := ⟨[], 1⟩

/-- Result of `insert_short_url`: a returned code, or the raised
`RuntimeError`. -/
inductive InsertResult where
  | ok (code : String)
  | error (msg : String)
deriving DecidableEq

/-- The generation/insert loop of `insert_short_url`, one iteration per
candidate code: an `INSERT` raises `sqlite3.IntegrityError` exactly when
the candidate violates the `UNIQUE` constraint on `code` (all other
columns are supplied and non-null), in which case the loop continues;
otherwise the row is inserted with `clicks` defaulting to 0 and the code
is returned.  An exhausted candidate list is the `RuntimeError` raised
after the loop, with the store unchanged. -/
def insertLoop (now u : String) (s : Store) : List String → InsertResult × Store
  | [] => (.error "Could not generate a unique short code", s)
  | c :: rest =>
    if s.rows.any (fun r => r.code == c) then insertLoop now u s rest
    else (.ok c, ⟨s.rows ++ [⟨s.nextId, c, u, now, 0⟩], s.nextId + 1⟩)

/-- Embedding of `insert_short_url` from `src/app.py`: first the dedup
query (`SELECT code FROM urls WHERE original_url = ?` with `fetchone`,
i.e. the first matching row), then up to `MAX_GENERATION_ATTEMPTS`
candidate-generation/insert cycles, candidate `k` being
`generate_code (rnd k)`; `now` is `datetime.utcnow().isoformat()`. -/
def insert_short_url (rnd : Nat → Nat → Fin 62) (now u : String) (s : Store) :
    InsertResult × Store :=
  match s.rows.find? (fun r => r.original_url == u) with
  | some r => (.ok r.code, s)
  | none =>
    insertLoop now u s
      ((List.range MAX_GENERATION_ATTEMPTS).map (fun k => generate_code (rnd k)))

/-- Embedding of `lookup_original_url` from `src/app.py`: look up the
first row whose `code` equals the argument; on a hit run
`UPDATE urls SET clicks = clicks + 1 WHERE code = ?` (which bumps every
row with that code) and return the original URL, otherwise return `None`
with the store untouched. -/
def lookup_original_url (code : String) (s : Store) : Option String × Store :=
  match s.rows.find? (fun r => r.code == code) with
  | some r =>
    (some r.original_url,
      ⟨s.rows.map (fun t => if t.code = code then ⟨t.id, t.code, t.original_url, t.created_at, t.clicks + 1⟩ else t),
       s.nextId⟩)
  | none => (none, s)

/-- Sequential resolution of the same code `n` times, threading the
store. -/
def resolveN (code : String) : Nat → Store → Store
  | 0, s => s
  | n + 1, s => resolveN code n (lookup_original_url code s).2

/-! Helper lemmas about `pyStrip`. -/

theorem dropWhile_head?_not (l : List Char) (c : Char)
    (h : (l.dropWhile isPyWhitespace).head? = some c) : isPyWhitespace c = false := by
  induction l with
  | nil => simp at h
  | cons a t ih =>
    rw [List.dropWhile_cons] at h
    split at h
    · exact ih h
    · next hb =>
      simp only [List.head?_cons, Option.some.injEq] at h
      subst h
      simpa using hb

theorem dropWhile_eq_self_of_head (l : List Char)
    (h : ∀ c, l.head? = some c → isPyWhitespace c = false) :
    l.dropWhile isPyWhitespace = l := by
  cases l with
  | nil => rfl
  | cons a t =>
    rw [List.dropWhile_cons, if_neg]
    simp [h a rfl]

theorem dropWhile_getLast? (p : Char → Bool) (l : List Char)
    (h : l.dropWhile p ≠ []) :
    (l.dropWhile p).getLast? = l.getLast? := by
  conv_rhs => rw [← List.takeWhile_append_dropWhile p l]
  rw [List.getLast?_append]
  cases hg : (l.dropWhile p).getLast? with
  | none => exact absurd (List.getLast?_eq_none_iff.mp hg) h
  | some a => rfl

theorem pyStrip_head?_not (l : List Char) (c : Char)
    (h : (pyStrip l).head? = some c) : isPyWhitespace c = false := by
  rw [pyStrip, List.head?_reverse] at h
  have hne : (l.dropWhile isPyWhitespace).reverse.dropWhile isPyWhitespace ≠ [] := by
    intro h0
    rw [h0] at h
    simp at h
  rw [dropWhile_getLast? _ _ hne, List.getLast?_reverse] at h
  exact dropWhile_head?_not l c h

theorem pyStrip_getLast?_not (l : List Char) (c : Char)
    (h : (pyStrip l).getLast? = some c) : isPyWhitespace c = false := by
  rw [pyStrip, List.getLast?_reverse] at h
  exact dropWhile_head?_not (l.dropWhile isPyWhitespace).reverse c h

theorem pyStrip_eq_self (l : List Char)
    (h1 : ∀ c, l.head? = some c → isPyWhitespace c = false)
    (h2 : ∀ c, l.getLast? = some c → isPyWhitespace c = false) :
    pyStrip l = l := by
  rw [pyStrip, dropWhile_eq_self_of_head l h1,
    dropWhile_eq_self_of_head l.reverse
      (fun c hc => h2 c (by rwa [List.head?_reverse] at hc)),
    List.reverse_reverse]

theorem pyStrip_https_append (t : List Char) (ht : t ≠ [])
    (h2 : ∀ c, t.getLast? = some c → isPyWhitespace c = false) :
    pyStrip ("https://".toList ++ t) = "https://".toList ++ t := by
  apply pyStrip_eq_self
  · intro c hc
    have hh : ("https://".toList ++ t).head? = some 'h' := rfl
    rw [hh] at hc
    injection hc with hc
    subst hc
    decide
  · intro c hc
    rw [List.getLast?_append] at hc
    cases hg : t.getLast? with
    | none => exact absurd (List.getLast?_eq_none_iff.mp hg) ht
    | some a =>
      rw [hg, Option.or_some] at hc
      injection hc with hc
      subst hc
      exact h2 a hg

/-! Helper lemmas about `acceptUrl` and `normalize_url`. -/

theorem acceptUrl_eq_some (c0 sch nl s : List Char)
    (h : acceptUrl c0 sch nl = some s) (hs : s ≠ []) :
    s = c0 ∧ (sch = "http".toList ∨ sch = "https".toList) ∧ nl ≠ [] ∧ ' ' ∉ c0 := by
  unfold acceptUrl at h
  by_cases h1 : sch = "http".toList ∨ sch = "https".toList
  · rw [if_neg (not_not_intro h1)] at h
    by_cases h2 : nl = [] ∨ ' ' ∈ c0
    · rw [if_pos h2] at h
      injection h with h
      exact absurd h.symm hs
    · rw [if_neg h2] at h
      injection h with h
      push_neg at h2
      exact ⟨h.symm, h1, h2.1, h2.2⟩
  · rw [if_pos h1] at h
    injection h with h
    exact absurd h.symm hs

theorem acceptUrl_of_space (c0 sch nl : List Char) (h : ' ' ∈ c0) :
    acceptUrl c0 sch nl = some [] := by
  unfold acceptUrl
  by_cases h1 : ¬(sch = "http".toList ∨ sch = "https".toList)
  · rw [if_pos h1]
  · rw [if_neg h1, if_pos (Or.inr h)]

/-- Structure of every accepted `normalize_url` run: the accepted string
is already stripped, its own parse has an `http`/`https` scheme, a
non-empty netloc and no space, and it is either the stripped input
verbatim (when the stripped input parsed with a scheme) or the stripped
input with `https://` prepended (when it parsed without one). -/
theorem normalize_accept (x s : List Char)
    (h : normalize_url x = some s) (hs : s ≠ []) :
    pyStrip s = s ∧
      (∃ sch nl, pyUrlsplit s = some (sch, nl) ∧
        (sch = "http".toList ∨ sch = "https".toList) ∧ nl ≠ [] ∧ ' ' ∉ s) ∧
      ((s = pyStrip x ∧ ∃ sch nl, pyUrlsplit (pyStrip x) = some (sch, nl) ∧ sch ≠ []) ∨
        (s = "https://".toList ++ pyStrip x ∧
          ∃ nl, pyUrlsplit (pyStrip x) = some ([], nl))) := by
  rw [normalize_url] at h
  by_cases h0 : pyStrip x = []
  · rw [if_pos h0] at h
    injection h with h
    exact absurd h.symm hs
  · rw [if_neg h0] at h
    cases hp : pyUrlsplit (pyStrip x) with
    | none =>
      rw [hp] at h
      exact absurd h (by simp)
    | some pr =>
      obtain ⟨sch, nl⟩ := pr
      rw [hp] at h
      simp only at h
      by_cases hsch : sch = []
      · rw [if_pos hsch] at h
        cases hp2 : pyUrlsplit ("https://".toList ++ pyStrip x) with
        | none =>
          rw [hp2] at h
          exact absurd h (by simp)
        | some pr2 =>
          obtain ⟨sch2, nl2⟩ := pr2
          rw [hp2] at h
          simp only at h
          obtain ⟨heq, hset, hnl, hsp⟩ := acceptUrl_eq_some _ _ _ _ h hs
          subst heq
          subst hsch
          refine ⟨?_, ⟨sch2, nl2, hp2, hset, hnl, hsp⟩, Or.inr ⟨rfl, nl, rfl⟩⟩
          exact pyStrip_https_append (pyStrip x) h0
            (fun c hc => pyStrip_getLast?_not x c hc)
      · rw [if_neg hsch] at h
        obtain ⟨heq, hset, hnl, hsp⟩ := acceptUrl_eq_some _ _ _ _ h hs
        subst heq
        refine ⟨?_, ⟨sch, nl, hp, hset, hnl, hsp⟩, Or.inl ⟨rfl, sch, nl, rfl, hsch⟩⟩
        exact pyStrip_eq_self _ (fun c hc => pyStrip_head?_not x c hc)
          (fun c hc => pyStrip_getLast?_not x c hc)

/-- C6: `normalize_url` is idempotent on accepted inputs: whenever
`normalize_url x` returns a non-sentinel string `s`, normalizing `s`
again returns `s` itself. -/
theorem normalize_idempotent (x s : List Char)
    (h : normalize_url x = some s) (hs : s ≠ []) :
    normalize_url s = some s := by
  obtain ⟨hstrip, ⟨sch, nl, hsplit, hset, hnl, hsp⟩, -⟩ := normalize_accept x s h hs
  have hschne : sch ≠ [] := by
    rcases hset with h1 | h1 <;> subst h1 <;> decide
  rw [normalize_url, hstrip, if_neg hs]
  simp only [hsplit]
  rw [if_neg hschne, acceptUrl, if_neg (not_not_intro hset), if_neg]
  rintro (hx | hx)
  · exact hnl hx
  · exact hsp hx

/-- Witness for C6 at the concrete accepted input `example.com`, whose
normalization is `https://example.com`. -/
theorem normalize_idempotent_witness :
    normalize_url "https://example.com".toList = some "https://example.com".toList :=
  normalize_idempotent "example.com".toList "https://example.com".toList
    (by decide) (by decide)

/-- C7: when the stripped input parses without a URL scheme and
normalization accepts it, the result is exactly `https://` prepended to
the stripped input. -/
theorem normalize_scheme_inference (x s : List Char)
    (h : normalize_url x = some s) (hs : s ≠ [])
    (hnos : ∃ nl, pyUrlsplit (pyStrip x) = some ([], nl)) :
    s = "https://".toList ++ pyStrip x := by
  obtain ⟨nl0, hnl0⟩ := hnos
  obtain ⟨-, -, hcase⟩ := normalize_accept x s h hs
  rcases hcase with ⟨heq, sch, nl, hp, hschne⟩ | ⟨heq, -⟩
  · rw [hp] at hnl0
    injection hnl0 with h'
    exact absurd (congrArg Prod.fst h') hschne
  · exact heq

/-- Witness for C7 at the concrete input `example.com`: its
normalization is the trimmed input with `https://` prepended. -/
theorem normalize_scheme_inference_witness :
    "https://example.com".toList = "https://".toList ++ pyStrip "example.com".toList :=
  normalize_scheme_inference "example.com".toList "https://example.com".toList
    (by decide) (by decide) ⟨[], by decide⟩

/-- C10: every accepted input is returned either verbatim (after
trimming) or as the trimmed input with `https://` prepended, with no
other rewriting; in particular an uppercase-scheme input such as
`HTTP://Example.COM/Path` is returned with its original casing. -/
theorem normalize_verbatim :
    (∀ x s : List Char, normalize_url x = some s → s ≠ [] →
      s = pyStrip x ∨ s = "https://".toList ++ pyStrip x) ∧
      normalize_url "HTTP://Example.COM/Path".toList =
        some "HTTP://Example.COM/Path".toList := by
  constructor
  · intro x s h hs
    obtain ⟨-, -, hcase⟩ := normalize_accept x s h hs
    rcases hcase with ⟨heq, -⟩ | ⟨heq, -⟩
    · exact Or.inl heq
    · exact Or.inr heq
  · decide

/-- Witness for C10 at the concrete input ` https://A.com ` (with
surrounding whitespace), accepted as the trimmed input verbatim. -/
theorem normalize_verbatim_witness :
    "https://A.com".toList = pyStrip " https://A.com ".toList ∨
      "https://A.com".toList = "https://".toList ++ pyStrip " https://A.com ".toList :=
  normalize_verbatim.1 " https://A.com ".toList "https://A.com".toList
    (by decide) (by decide)

/-- C4 counterexample: the claim fails in two ways.  The input
`http://a\tb.c` still contains the whitespace character tab after
trimming, yet `normalize_url` accepts it and returns it unchanged
instead of the empty-string rejection sentinel (Python's `urlparse`
deletes tab/CR/LF before parsing, and the code's embedded-whitespace
check only tests for the space character).  And the wrong-scheme input
`ftp://[x` and the space-containing input `http://[a b]` do not yield
the sentinel either: `urlparse` raises `ValueError` on their malformed
bracketed netlocs, and the fault propagates uncaught out of
`normalize_url`. -/
theorem normalize_whitespace_counterexample :
    (normalize_url "http://a\tb.c".toList = some "http://a\tb.c".toList ∧
      "http://a\tb.c".toList ≠ [] ∧
      '\t' ∈ pyStrip "http://a\tb.c".toList ∧
      isPyWhitespace '\t' = true) ∧
      normalize_url "ftp://[x".toList = none ∧
      (normalize_url "http://[a b]".toList = none ∧
        ' ' ∈ pyStrip "http://[a b]".toList) := by
  decide

/-- C4 (amended): `normalize_url` returns the empty-string sentinel for
every input that is empty or only whitespace after trimming, and for
every input whose stripped form parses with a non-empty scheme other
than exactly `http` or `https` — such as `ftp://example.com` (after
optional `https://` prefixing, a successfully parsed input otherwise
always has scheme `https`); for every input still containing a space
character (U+0020) after trimming it returns the sentinel whenever
`urlparse` does not raise (on a malformed bracketed netloc the uncaught
`ValueError` propagates instead of the sentinel).  Inputs containing
non-space whitespace such as tab after trimming are not necessarily
rejected. -/
theorem normalize_rejection :
    (∀ x : List Char, pyStrip x = [] → normalize_url x = some []) ∧
    (∀ x sch nl : List Char, pyUrlsplit (pyStrip x) = some (sch, nl) →
      sch ≠ [] → ¬(sch = "http".toList ∨ sch = "https".toList) →
      normalize_url x = some []) ∧
    (∀ x : List Char, ' ' ∈ pyStrip x → normalize_url x ≠ none →
      normalize_url x = some []) ∧
    normalize_url "ftp://example.com".toList = some [] ∧
    normalize_url "".toList = some [] ∧
    normalize_url "   ".toList = some [] := by
  refine ⟨?_, ?_, ?_, by decide, by decide, by decide⟩
  · intro x h0
    rw [normalize_url, if_pos h0]
  · intro x sch nl hp hne hset
    by_cases h0 : pyStrip x = []
    · rw [normalize_url, if_pos h0]
    · rw [normalize_url, if_neg h0]
      simp only [hp]
      rw [if_neg hne, acceptUrl, if_pos hset]
  · intro x hsp hne
    cases hn : normalize_url x with
    | none => exact absurd hn hne
    | some s =>
      by_cases hs : s = []
      · rw [hs]
      · exfalso
        obtain ⟨-, ⟨-, -, -, -, -, hnosp⟩, hcase⟩ := normalize_accept x s hn hs
        rcases hcase with ⟨heq, -⟩ | ⟨heq, -⟩
        · exact hnosp (by rw [heq]; exact hsp)
        · exact hnosp (by rw [heq]; exact List.mem_append_right _ hsp)

/-- Witness for C4 (amended) at concrete inputs: a whitespace-only
input, a wrong-scheme input parsed as `ftp`, and an input with an
embedded space on which parsing does not fault. -/
theorem normalize_rejection_witness :
    normalize_url "  \t ".toList = some [] ∧
      normalize_url "ftp://example.org".toList = some [] ∧
      normalize_url "http://a b.c".toList = some [] :=
  ⟨normalize_rejection.1 "  \t ".toList (by decide),
    normalize_rejection.2.1 "ftp://example.org".toList "ftp".toList
      "example.org".toList (by decide) (by decide) (by decide),
    normalize_rejection.2.2.1 "http://a b.c".toList (by decide) (by decide)⟩

/-! Helper lemmas about the store operations. -/

theorem insertLoop_ok (now u : String) (s : Store) (cands : List String)
    (c : String) (s' : Store)
    (h : insertLoop now u s cands = (.ok c, s')) :
    (∀ r ∈ s.rows, r.code ≠ c) ∧
      s' = ⟨s.rows ++ [⟨s.nextId, c, u, now, 0⟩], s.nextId + 1⟩ := by
  induction cands with
  | nil => exact absurd h (by simp [insertLoop])
  | cons c0 rest ih =>
    rw [insertLoop] at h
    by_cases ha : s.rows.any (fun r => r.code == c0)
    · rw [if_pos ha] at h
      exact ih h
    · rw [if_neg ha] at h
      rw [Prod.mk.injEq] at h
      obtain ⟨h1, h2⟩ := h
      injection h1 with h1
      subst h1
      refine ⟨?_, h2.symm⟩
      intro r hr hrc
      exact ha (List.any_eq_true.mpr ⟨r, hr, by simp [hrc]⟩)

theorem insertLoop_rows (now u : String) (s : Store) (cands : List String)
    (res : InsertResult) (s' : Store)
    (h : insertLoop now u s cands = (res, s')) :
    s'.rows = s.rows ∨
      ∃ c, s'.rows = s.rows ++ [⟨s.nextId, c, u, now, 0⟩] := by
  induction cands with
  | nil =>
    rw [insertLoop, Prod.mk.injEq] at h
    rw [← h.2]
    exact Or.inl rfl
  | cons c0 rest ih =>
    rw [insertLoop] at h
    by_cases ha : s.rows.any (fun r => r.code == c0)
    · rw [if_pos ha] at h
      exact ih h
    · rw [if_neg ha, Prod.mk.injEq] at h
      rw [← h.2]
      exact Or.inr ⟨c0, rfl⟩

theorem insertLoop_exhausted (now u : String) (s : Store) (cands : List String)
    (h : ∀ cand ∈ cands, s.rows.any (fun r => r.code == cand) = true) :
    insertLoop now u s cands = (.error "Could not generate a unique short code", s) := by
  induction cands with
  | nil => rfl
  | cons c0 rest ih =>
    rw [insertLoop, if_pos (h c0 (by simp))]
    exact ih (fun cand hc => h cand (by simp [hc]))

theorem find?_url_eq_none (u : String) (s : Store)
    (hnew : ∀ r ∈ s.rows, r.original_url ≠ u) :
    s.rows.find? (fun r => r.original_url == u) = none := by
  rw [List.find?_eq_none]
  intro r hr
  simpa using hnew r hr

/-- C1: round-trip: when `insert_short_url` shortens a URL `u` that was
not previously stored (so a new row is inserted) and returns code `c`,
resolving `c` on the resulting store returns exactly `u`. -/
theorem round_trip_resolve (rnd : Nat → Nat → Fin 62) (now u : String)
    (s : Store) (c : String) (s' : Store)
    (hnew : ∀ r ∈ s.rows, r.original_url ≠ u)
    (h : insert_short_url rnd now u s = (.ok c, s')) :
    (lookup_original_url c s').1 = some u := by
  rw [insert_short_url, find?_url_eq_none u s hnew] at h
  obtain ⟨hnc, rfl⟩ := insertLoop_ok now u s _ c s' h
  rw [lookup_original_url]
  have hf : (s.rows ++ [(⟨s.nextId, c, u, now, 0⟩ : UrlRecord)]).find?
      (fun r => r.code == c) = some ⟨s.nextId, c, u, now, 0⟩ := by
    rw [List.find?_append]
    have h1 : s.rows.find? (fun r => r.code == c) = none := by
      rw [List.find?_eq_none]
      intro r hr
      simpa using hnc r hr
    rw [h1]
    simp [List.find?]
  simp only [hf]

/-- Witness for C1: inserting `https://example.com` into the empty store
yields code `aaaaaa`, and resolving `aaaaaa` returns the URL. -/
theorem round_trip_resolve_witness :
    (lookup_original_url "aaaaaa"
      ⟨[⟨1, "aaaaaa", "https://example.com", "t", 0⟩], 2⟩).1 =
      some "https://example.com" :=
  round_trip_resolve (fun _ _ => (0 : Fin 62)) "t" "https://example.com" init_db
    "aaaaaa" ⟨[⟨1, "aaaaaa", "https://example.com", "t", 0⟩], 2⟩
    (by simp [init_db]) (by decide)

/-- C2: dedup: a second `insert_short_url` call with the same URL (any
timestamp, any random stream) returns the identical code and leaves the
store exactly as it was, and when the URL was new the store holds
exactly one record for it. -/
theorem shorten_dedup (rnd rnd' : Nat → Nat → Fin 62) (now now' u : String)
    (s : Store) (c : String) (s' : Store)
    (h : insert_short_url rnd now u s = (.ok c, s')) :
    insert_short_url rnd' now' u s' = (.ok c, s') ∧
      ((∀ r ∈ s.rows, r.original_url ≠ u) →
        (s'.rows.filter (fun r => r.original_url == u)).length = 1) := by
  rw [insert_short_url] at h
  cases hf : s.rows.find? (fun r => r.original_url == u) with
  | some r =>
    rw [hf] at h
    simp only [Prod.mk.injEq] at h
    obtain ⟨h1, h2⟩ := h
    injection h1 with h1
    subst h1
    subst h2
    constructor
    · rw [insert_short_url, hf]
    · intro hnew
      have : r.original_url = u := by
        simpa using List.find?_some hf
      exact absurd this (hnew r (List.mem_of_find?_eq_some hf))
  | none =>
    rw [hf] at h
    obtain ⟨hnc, rfl⟩ := insertLoop_ok now u s _ c s' h
    have hfind : (s.rows ++ [(⟨s.nextId, c, u, now, 0⟩ : UrlRecord)]).find?
        (fun r => r.original_url == u) = some ⟨s.nextId, c, u, now, 0⟩ := by
      rw [List.find?_append, hf]
      simp [List.find?]
    constructor
    · rw [insert_short_url]
      simp only [hfind]
    · intro hnew
      have hempty : s.rows.filter (fun r => r.original_url == u) = [] := by
        rw [List.filter_eq_nil_iff]
        intro r hr
        simpa using hnew r hr
      simp [List.filter_append, hempty]

/-- Witness for C2: re-inserting `https://example.com` (fresh timestamp
and random stream) returns the same code `aaaaaa` with the store
unchanged, and that store holds exactly one record for the URL. -/
theorem shorten_dedup_witness :
    insert_short_url (fun _ _ => (1 : Fin 62)) "t2" "https://example.com"
        ⟨[⟨1, "aaaaaa", "https://example.com", "t", 0⟩], 2⟩ =
      (.ok "aaaaaa", ⟨[⟨1, "aaaaaa", "https://example.com", "t", 0⟩], 2⟩) ∧
      ((∀ r ∈ init_db.rows, r.original_url ≠ "https://example.com") →
        (((⟨[⟨1, "aaaaaa", "https://example.com", "t", 0⟩], 2⟩ : Store)).rows.filter
          (fun r => r.original_url == "https://example.com")).length = 1) :=
  shorten_dedup (fun _ _ => (0 : Fin 62)) (fun _ _ => (1 : Fin 62)) "t" "t2"
    "https://example.com" init_db "aaaaaa"
    ⟨[⟨1, "aaaaaa", "https://example.com", "t", 0⟩], 2⟩ (by decide)

/-- C3: exhaustion: when the URL is not already stored and every one of
the `MAX_GENERATION_ATTEMPTS = 20` (a bound of at least 10) generated
candidates collides with an existing code, `insert_short_url` fails with
the raised `RuntimeError` — not a normal return value — and the store is
unchanged, with zero rows inserted. -/
theorem shorten_exhaustion (rnd : Nat → Nat → Fin 62) (now u : String) (s : Store)
    (hnew : ∀ r ∈ s.rows, r.original_url ≠ u)
    (hcol : ∀ k < MAX_GENERATION_ATTEMPTS,
      s.rows.any (fun r => r.code == generate_code (rnd k)) = true) :
    insert_short_url rnd now u s =
      (.error "Could not generate a unique short code", s) ∧
      MAX_GENERATION_ATTEMPTS = 20 ∧ 10 ≤ MAX_GENERATION_ATTEMPTS := by
  refine ⟨?_, rfl, by decide⟩
  rw [insert_short_url, find?_url_eq_none u s hnew]
  apply insertLoop_exhausted
  intro cand hc
  obtain ⟨k, hk, rfl⟩ := List.mem_map.mp hc
  exact hcol k (List.mem_range.mp hk)

/-- Witness for C3: with a constant random stream every candidate is
`aaaaaa`, which is already taken, so inserting a fresh URL errors and
leaves the store unchanged. -/
theorem shorten_exhaustion_witness :
    insert_short_url (fun _ _ => (0 : Fin 62)) "t" "https://b.com"
        ⟨[⟨1, "aaaaaa", "https://a.com", "t", 0⟩], 2⟩ =
      (.error "Could not generate a unique short code",
        ⟨[⟨1, "aaaaaa", "https://a.com", "t", 0⟩], 2⟩) ∧
      MAX_GENERATION_ATTEMPTS = 20 ∧ 10 ≤ MAX_GENERATION_ATTEMPTS :=
  shorten_exhaustion (fun _ _ => (0 : Fin 62)) "t" "https://b.com"
    ⟨[⟨1, "aaaaaa", "https://a.com", "t", 0⟩], 2⟩ (by decide) (by decide)

/-- C8: resolving a code with no exactly-equal stored code returns the
not-found sentinel and leaves the store completely unchanged. -/
theorem resolve_not_found (code : String) (s : Store)
    (h : ∀ r ∈ s.rows, r.code ≠ code) :
    lookup_original_url code s = (none, s) := by
  rw [lookup_original_url]
  have hf : s.rows.find? (fun r => r.code == code) = none := by
    rw [List.find?_eq_none]
    intro r hr
    simpa using h r hr
  simp only [hf]

/-- Witness for C8 at a concrete store without the queried code. -/
theorem resolve_not_found_witness :
    lookup_original_url "zzzzzz" ⟨[⟨1, "aaaaaa", "https://a.com", "t", 7⟩], 2⟩ =
      (none, ⟨[⟨1, "aaaaaa", "https://a.com", "t", 7⟩], 2⟩) :=
  resolve_not_found "zzzzzz" ⟨[⟨1, "aaaaaa", "https://a.com", "t", 7⟩], 2⟩
    (by decide)

/-- C9: every string produced by `generate_code` has exactly 6
characters, each drawn from the 62-character alphanumeric alphabet. -/
theorem generate_code_shape (rnd : Nat → Fin 62) :
    (generate_code rnd).length = 6 ∧
      (generate_code rnd).toList.all (fun c => alphabet.contains c) = true := by
  constructor
  · simp [generate_code, CODE_LENGTH]
  · rw [List.all_eq_true]
    intro c hc
    have : c ∈ (List.range CODE_LENGTH).map
        (fun i => alphabet.get ((rnd i).cast (by decide))) := hc
    obtain ⟨i, -, rfl⟩ := List.mem_map.mp this
    exact List.elem_iff.mpr (List.get_mem alphabet _ _)

theorem insert_rows_cases (rnd : Nat → Nat → Fin 62) (now u : String)
    (s : Store) (res : InsertResult) (s' : Store)
    (h : insert_short_url rnd now u s = (res, s')) :
    s'.rows = s.rows ∨
      ∃ c, s'.rows = s.rows ++ [⟨s.nextId, c, u, now, 0⟩] := by
  rw [insert_short_url] at h
  cases hf : s.rows.find? (fun r => r.original_url == u) with
  | some r =>
    rw [hf, Prod.mk.injEq] at h
    rw [← h.2]
    exact Or.inl rfl
  | none =>
    rw [hf] at h
    exact insertLoop_rows now u s _ res s' h

/-- C5: click accounting: rows are created with `clicks = 0`, the
`clicks` counter is monotonically non-decreasing under both store
operations, and resolving the same code `n` times sequentially adds
exactly `n` to the click count of every row holding that code while
leaving every other row unchanged. -/
theorem clicks_accounting :
    (∀ rnd now u s res s', insert_short_url rnd now u s = (res, s') →
      (∀ r' ∈ s'.rows, r' ∈ s.rows ∨ r'.clicks = 0) ∧
        (∀ r ∈ s.rows, ∃ r' ∈ s'.rows, r'.id = r.id ∧ r.clicks ≤ r'.clicks)) ∧
    (∀ code s, ∀ r ∈ s.rows, ∃ r' ∈ (lookup_original_url code s).2.rows,
        r'.id = r.id ∧ r.clicks ≤ r'.clicks) ∧
    (∀ code s n, (∃ r ∈ s.rows, r.code = code) →
      (resolveN code n s).rows = s.rows.map
        (fun r => if r.code = code then
          ⟨r.id, r.code, r.original_url, r.created_at, r.clicks + n⟩ else r)) := by
  refine ⟨?_, ?_, ?_⟩
  · intro rnd now u s res s' h
    rcases insert_rows_cases rnd now u s res s' h with hr | ⟨c, hr⟩
    · rw [hr]
      exact ⟨fun r' h' => Or.inl h', fun r hrr => ⟨r, hrr, rfl, le_refl _⟩⟩
    · rw [hr]
      constructor
      · intro r' h'
        rcases List.mem_append.mp h' with h1 | h1
        · exact Or.inl h1
        · right
          simp only [List.mem_singleton] at h1
          rw [h1]
      · intro r hrr
        exact ⟨r, List.mem_append_left _ hrr, rfl, le_refl _⟩
  · intro code s r hrr
    rw [lookup_original_url]
    cases hf : s.rows.find? (fun r => r.code == code) with
    | none => exact ⟨r, hrr, rfl, le_refl _⟩
    | some r1 =>
      refine ⟨(fun t : UrlRecord => if t.code = code then
          (⟨t.id, t.code, t.original_url, t.created_at, t.clicks + 1⟩ : UrlRecord)
          else t) r,
        List.mem_map_of_mem _ hrr, ?_, ?_⟩
      · by_cases hc : r.code = code <;> simp [hc]
      · by_cases hc : r.code = code <;> simp [hc]
  · intro code s n
    induction n generalizing s with
    | zero =>
      intro hex
      show s.rows = s.rows.map (fun r : UrlRecord => if r.code = code then
        ⟨r.id, r.code, r.original_url, r.created_at, r.clicks + 0⟩ else r)
      symm
      have hid : s.rows.map (fun r : UrlRecord => if r.code = code then
          (⟨r.id, r.code, r.original_url, r.created_at, r.clicks + 0⟩ : UrlRecord)
          else r) = s.rows.map id :=
        List.map_congr_left (fun r hr => by
          by_cases hc : r.code = code
          · rw [if_pos hc, Nat.add_zero]
            rfl
          · rw [if_neg hc]
            rfl)
      rw [hid, List.map_id]
    | succ n ih =>
      intro hex
      obtain ⟨r0, hr0, hc0⟩ := hex
      cases hf : s.rows.find? (fun r => r.code == code) with
      | none =>
        exfalso
        rw [List.find?_eq_none] at hf
        exact hf r0 hr0 (by simp [hc0])
      | some r1 =>
        have heq2 : (lookup_original_url code s).2.rows = s.rows.map
            (fun t : UrlRecord => if t.code = code then
              ⟨t.id, t.code, t.original_url, t.created_at, t.clicks + 1⟩ else t) := by
          rw [lookup_original_url, hf]
        have hex2 : ∃ r ∈ (lookup_original_url code s).2.rows, r.code = code := by
          rw [heq2]
          exact ⟨_, List.mem_map_of_mem _ hr0, by simp [hc0]⟩
        show (resolveN code n (lookup_original_url code s).2).rows = _
        rw [ih ((lookup_original_url code s).2) hex2, heq2, List.map_map]
        apply List.map_congr_left
        intro r hr
        by_cases hc : r.code = code
        · simp [Function.comp, hc, Nat.add_assoc, Nat.add_comm 1 n]
        · simp [Function.comp, hc]

/-- Witness for C5: a freshly inserted row is new with `clicks = 0`, a
single resolution does not decrease an existing counter, and resolving
`c1` three times adds exactly 3 to its row and leaves the `c2` row
unchanged. -/
theorem clicks_accounting_witness :
    ((⟨1, "aaaaaa", "https://example.com", "t", 0⟩ : UrlRecord) ∈ init_db.rows ∨
      (⟨1, "aaaaaa", "https://example.com", "t", 0⟩ : UrlRecord).clicks = 0) ∧
      (∃ r' ∈ (lookup_original_url "c1"
          ⟨[⟨1, "c1", "https://a.com", "t", 4⟩], 2⟩).2.rows,
        r'.id = (⟨1, "c1", "https://a.com", "t", 4⟩ : UrlRecord).id ∧
          (⟨1, "c1", "https://a.com", "t", 4⟩ : UrlRecord).clicks ≤ r'.clicks) ∧
      (resolveN "c1" 3
          ⟨[⟨1, "c1", "https://a.com", "t", 0⟩, ⟨2, "c2", "https://b.com", "t", 5⟩], 3⟩).rows =
        ((⟨[⟨1, "c1", "https://a.com", "t", 0⟩, ⟨2, "c2", "https://b.com", "t", 5⟩], 3⟩ : Store)).rows.map
          (fun r => if r.code = "c1" then
            ⟨r.id, r.code, r.original_url, r.created_at, r.clicks + 3⟩ else r) :=
  ⟨((clicks_accounting.1 (fun _ _ => (0 : Fin 62)) "t" "https://example.com" init_db
      (.ok "aaaaaa") ⟨[⟨1, "aaaaaa", "https://example.com", "t", 0⟩], 2⟩
      (by decide)).1 ⟨1, "aaaaaa", "https://example.com", "t", 0⟩ (by decide)),
    clicks_accounting.2.1 "c1" ⟨[⟨1, "c1", "https://a.com", "t", 4⟩], 2⟩
      ⟨1, "c1", "https://a.com", "t", 4⟩ (by decide),
    clicks_accounting.2.2 "c1"
      ⟨[⟨1, "c1", "https://a.com", "t", 0⟩, ⟨2, "c2", "https://b.com", "t", 5⟩], 3⟩ 3
      ⟨⟨1, "c1", "https://a.com", "t", 0⟩, by decide, rfl⟩⟩

end ShortUrl
